import Mathlib

/-!
Verification of the btclib ECSSA (bip-schnorr) core, `btclib/ssa.py`.

The functions of `ssa.py` are translated directly from the source.  The
collaborator modules they import (`curve`, `curvemult`, `numbertheory`,
`rfc6979`, `utils`) are not part of the sources under verification, so
they are modelled from the specification, which fixes them only at their
interface boundary (spec section 6, Curve Algebra Provider, Hash
interface, Nonce-derivation interface).

Conventions, following the source: an affine point is a pair of
naturals, with second component 0 encoding the point at infinity; a
Jacobian point is a triple with third component 0 encoding infinity;
bytes are lists of naturals; fallible operations return `Except Err`.
-/

namespace Btclib

/-- Error taxonomy of spec section 7. -/
inductive Err where
  | curveConstraint
  | msgSize
  | keyRange
  | sigFormat
  | pointErr
  | noQuadRes
  | sizeMismatch
  | zeroChallenge
  deriving DecidableEq, Repr

/-- Affine point; second component 0 encodes the point at infinity. -/
def Pt := Nat × Nat
deriving DecidableEq, Repr

/-- Jacobian point; third component 0 encodes the point at infinity. -/
def JacPt := Nat × Nat × Nat
deriving DecidableEq, Repr

/-- The affine point at infinity (second component 0). -/
def INF_PT : Pt := (1, 0)

/-- The Jacobian point at infinity (third component 0). -/
def INFJ : JacPt := (1, 1, 0)

/-- Modelled from the spec: modular exponentiation, the base of the
`numbertheory` collaborator (not under src/). -/
def powMod (a : Nat) : Nat → Nat → Nat
  | 0, m => 1 % m
  | k + 1, m => a * powMod a k m % m

/-- Modelled from the spec: the Legendre-symbol / quadratic-residue test
consumed by the Curve Algebra Provider interface (`isQuadraticResidue`);
the result is 1 exactly on nonzero quadratic residues. -/
def legendre_symbol (a p : Nat) : Nat :=
  powMod a ((p - 1) / 2) p

/-- Modelled from the spec: `modInverse(x, modulus)` of the Curve Algebra
Provider interface (the `numbertheory` module is not under src/).
Computed by the Fermat exponentiation; the modulus is prime at every
call site of the core. -/
def mod_inv (x m : Nat) : Nat :=
  powMod x (m - 2) m

/-- Modelled from the spec: curve parameters of spec section 3 (prime,
order, generator, bit-length of the order, byte-length of field
elements) together with the short-Weierstrass coefficients. -/
structure Curve where
  p : Nat
  n : Nat
  a : Nat
  b : Nat
  G : Pt
  nlen : Nat
  psize : Nat
  deriving DecidableEq, Repr

/-- Modelled from the spec: the chord-and-tangent affine group law of the
Curve Algebra Provider (not under src/).  Inputs are normalised mod p;
a point with second component 0 acts as the identity. -/
def addPt (ec : Curve) (P Q : Pt) : Pt :=
  if P.2 = 0 then Q
  else if Q.2 = 0 then P
  else
    let x1 := P.1 % ec.p
    let y1 := P.2 % ec.p
    let x2 := Q.1 % ec.p
    let y2 := Q.2 % ec.p
    if x1 = x2 then
      if (y1 + y2) % ec.p = 0 then INF_PT
      else
        let lam := (3 * x1 * x1 + ec.a) % ec.p * mod_inv (2 * y1 % ec.p) ec.p % ec.p
        let x3 := (lam * lam + 2 * ec.p - x1 - x2) % ec.p
        (x3, (lam * ((x1 + ec.p - x3) % ec.p) + (ec.p - y1)) % ec.p)
    else
      let lam := (y2 + ec.p - y1) % ec.p * mod_inv ((x2 + ec.p - x1) % ec.p) ec.p % ec.p
      let x3 := (lam * lam + 2 * ec.p - x1 - x2) % ec.p
      (x3, (lam * ((x1 + ec.p - x3) % ec.p) + (ec.p - y1)) % ec.p)

/-- Modelled from the spec: affine scalar multiplication (`scalarMul` of
the Curve Algebra Provider interface), here by iterated addition. -/
def mult (ec : Curve) : Nat → Pt → Pt
  | 0, _ => INF_PT
  | k + 1, P => addPt ec P (mult ec k P)

/-- Modelled from the spec: `toJacobian` of the Curve Algebra Provider
interface (`_jac_from_aff` of the missing `curvemult` module). -/
def jacFromAff (P : Pt) : JacPt :=
  if P.2 = 0 then INFJ else (P.1, P.2, 1)

/-- Modelled from the spec: Jacobian-to-affine conversion, a triple
(X, Y, Z) representing the affine point (X / Z ^ 2, Y / Z ^ 3). -/
def affFromJac (ec : Curve) (R : JacPt) : Pt :=
  if R.2.2 = 0 then INF_PT
  else if R.2.2 = 1 then (R.1, R.2.1)
  else (R.1 * mod_inv (R.2.2 * R.2.2 % ec.p) ec.p % ec.p,
        R.2.1 * mod_inv (R.2.2 * R.2.2 * R.2.2 % ec.p) ec.p % ec.p)

/-- Modelled from the spec: signed scalar multiplication; the scalar is
reduced into [0, n) in the order-n group of the provider. -/
def zmult (ec : Curve) (m : Int) (P : Pt) : Pt :=
  mult ec (Int.toNat (m % (ec.n : Int))) P

/-- Modelled from the spec: `scalarMul(k, point) -> JacobianPoint`
(`_mult_jac` of the missing `curvemult` module). -/
def mult_jac (ec : Curve) (k : Nat) (RJ : JacPt) : JacPt :=
  jacFromAff (mult ec k (affFromJac ec RJ))

/-- Modelled from the spec: `doubleScalarMul(k1, P1, k2, P2)` in affine
form (`double_mult` of the missing `curvemult` module). -/
def double_mult (ec : Curve) (u : Int) (Q : Pt) (v : Int) (H : Pt) : Pt :=
  addPt ec (zmult ec u Q) (zmult ec v H)

/-- Modelled from the spec: `doubleScalarMul` returning a Jacobian point
(`_double_mult` of the missing `curvemult` module). -/
def double_mult_jac (ec : Curve) (u : Int) (QJ : JacPt) (v : Int) (HJ : JacPt) : JacPt :=
  jacFromAff (double_mult ec u (affFromJac ec QJ) v (affFromJac ec HJ))

/-- Modelled from the spec: `multiScalarMul(scalars[], points[])`
(`_multi_mult` of the missing `curvemult` module). -/
def multi_mult (ec : Curve) (scalars : List Nat) (points : List JacPt) : JacPt :=
  jacFromAff ((scalars.zip points).foldl
    (fun acc sp => addPt ec acc (mult ec sp.1 (affFromJac ec sp.2))) INF_PT)

/-- The Jacobian generator, as held by the curve object in the source. -/
def Curve.GJ (ec : Curve) : JacPt :=
  jacFromAff ec.G

/-- Modelled from the spec: `isOnCurve(point)` of the Curve Algebra
Provider interface; a point is valid when its coordinates are reduced
field elements satisfying the curve equation. -/
def on_curve (ec : Curve) (P : Pt) : Bool :=
  decide (P.1 < ec.p) && decide (P.2 < ec.p) &&
    (P.2 * P.2 % ec.p == (P.1 ^ 3 + ec.a * P.1 + ec.b) % ec.p)

/-- Modelled from the spec: `require_on_curve` of the missing `curve`
module, raising a point error on an invalid point. -/
def require_on_curve (ec : Curve) (P : Pt) : Except Err Unit :=
  if on_curve ec P then .ok () else .error .pointErr

/-- Modelled from the spec: `ec.y(x)`, a square root of the curve
polynomial at x, via the (p + 1) / 4 exponent available since the prime
is 3 mod 4; fails when no point exists at x. -/
def curve_y (ec : Curve) (x : Nat) : Except Err Nat :=
  let c := (x ^ 3 + ec.a * x + ec.b) % ec.p
  let root := powMod c ((ec.p + 1) / 4) ec.p
  if root * root % ec.p = c then .ok root else .error .noQuadRes

/-- Modelled from the spec: `pointFromX(x, preferQuadraticResidue)`,
the quadratic-residue root of the curve polynomial at x
(`ec.y_quadratic_residue` of the missing `curve` module). -/
def y_quadratic_residue (ec : Curve) (x : Nat) : Except Err Nat :=
  let c := (x ^ 3 + ec.a * x + ec.b) % ec.p
  let root := powMod c ((ec.p + 1) / 4) ec.p
  if root * root % ec.p = c then
    if legendre_symbol root ec.p = 1 then .ok root
    else .ok ((ec.p - root) % ec.p)
  else .error .noQuadRes

/-- Modelled from the spec: the hash interface, a digest function with a
fixed, queryable digest size. -/
structure HashF where
  digestSize : Nat
  digest : List Nat → List Nat

/-- Modelled from the spec: fixed-width big-endian serialisation of an
integer (`octets_from_int` of the missing `utils` module). -/
def octets_from_int (x size : Nat) : List Nat :=
  (List.range size).map (fun i => x / 256 ^ (size - 1 - i) % 256)

/-- Modelled from the spec: compressed serialisation of a point
(`octets_from_point` of the missing `utils` module); infinity gets a
distinguished single byte. -/
def octets_from_point (P : Pt) (ec : Curve) : List Nat :=
  if P.2 = 0 then [0] else (2 + P.2 % 2) :: octets_from_int P.1 ec.psize

/-- Big-endian number of a byte string. -/
def nat_from_bytes (bs : List Nat) : Nat :=
  bs.foldl (fun acc c => acc * 256 + c) 0

/-- Modelled from the spec: `int_from_bits` of the missing `utils`
module; per spec sections 3 and 4.1 the challenge is the hash value
reduced mod n. -/
def int_from_bits (bs : List Nat) (ec : Curve) : Nat :=
  nat_from_bytes bs % ec.n

/-- The challenge hasher of `ssa.py` (`_e`):
e = int(hf(bytes(r) || bytes(P) || mhd)) mod n. -/
def _e (r : Nat) (P : Pt) (mhd : List Nat) (ec : Curve) (hf : HashF) : Nat :=
  int_from_bits (hf.digest (octets_from_int r ec.psize ++ octets_from_point P ec ++ mhd)) ec

/-- `_ensure_msg_size` of `ssa.py`: the message must have exactly the
digest size of the hash function. -/
def _ensure_msg_size (msg : List Nat) (hf : HashF) : Except Err Unit :=
  if msg.length ≠ hf.digestSize then .error .msgSize else .ok ()

/-- `_check_sig` of `ssa.py`: r in [0, 2 ^ 256 - 1) and s in [0, n). -/
def _check_sig (sig : Nat × Nat) (ec : Curve) : Except Err Unit :=
  if ¬ sig.1 < 2 ^ 256 - 1 then .error .sigFormat
  else if ¬ sig.2 < ec.n then .error .sigFormat
  else .ok ()

/-- `sign` of `ssa.py`.  The deterministic nonce derivation (rfc6979,
not under src/) is the injected `nonce` argument, per the spec
Nonce-derivation interface. -/
def sign (mhd : List Nat) (d : Nat) (k0 : Option Nat) (ec : Curve) (hf : HashF)
    (nonce : List Nat → Nat → Nat) : Except Err (Nat × Nat) :=
  if ¬ ec.p % 4 = 3 then .error .curveConstraint
  else match _ensure_msg_size mhd hf with
  | .error z => .error z
  | .ok _ =>
    if ¬ (0 < d ∧ d < ec.n) then .error .keyRange
    else
      let P := mult ec d ec.G
      let k := k0.getD (nonce mhd d)
      if ¬ (0 < k ∧ k < ec.n) then .error .keyRange
      else
        let RJ := mult_jac ec k ec.GJ
        let k2 := if legendre_symbol (RJ.2.1 * RJ.2.2 % ec.p) ec.p ≠ 1 then ec.n - k else k
        let Z2 := RJ.2.2 * RJ.2.2
        let r := RJ.1 * mod_inv Z2 ec.p % ec.p
        let e := _e r P mhd ec hf
        .ok (r, (k2 + e * d) % ec.n)

/-- `_verify` of `ssa.py`: the detailed, error-reporting single
verification. -/
def _verify (mhd : List Nat) (P : Pt) (sig : Nat × Nat) (ec : Curve) (hf : HashF) :
    Except Err Bool :=
  if ¬ ec.p % 4 = 3 then .error .curveConstraint
  else match _check_sig sig ec with
  | .error z => .error z
  | .ok _ => match _ensure_msg_size mhd hf with
    | .error z => .error z
    | .ok _ => match require_on_curve ec P with
      | .error z => .error z
      | .ok _ =>
        if P.2 = 0 then .error .pointErr
        else
          let e := _e sig.1 P mhd ec hf
          let R := double_mult_jac ec (-(e : Int)) (P.1, P.2, 1) (sig.2 : Int) ec.GJ
          if R.2.2 = 0 then .error .pointErr
          else if legendre_symbol (R.2.1 * R.2.2 % ec.p) ec.p ≠ 1 then .error .noQuadRes
          else .ok (R.1 == R.2.2 * R.2.2 * sig.1 % ec.p)

/-- `verify` of `ssa.py`: the public entry point, a try/except wrapper
collapsing every error of `_verify` to false. -/
def verify (mhd : List Nat) (P : Pt) (sig : Nat × Nat) (ec : Curve) (hf : HashF) : Bool :=
  match _verify mhd P sig ec hf with
  | .ok b => b
  | .error _ => false

/-- `_pubkey_recovery` of `ssa.py` (diagnostic only); the hash
function argument is unused, as in the source. -/
def _pubkey_recovery (e : Nat) (sig : Nat × Nat) (ec : Curve) (_hf : HashF) : Except Err Pt :=
  match _check_sig sig ec with
  | .error z => .error z
  | .ok _ => match y_quadratic_residue ec sig.1 with
    | .error z => .error z
    | .ok y =>
      let K : Pt := (sig.1, y)
      if e = 0 then .error .zeroChallenge
      else
        let e1 := mod_inv e ec.n
        let P := double_mult ec (-(e1 : Int)) K ((e1 * sig.2 : Nat) : Int) ec.G
        if P.2 = 0 then .error .pointErr
        else .ok P

/-- The batch coefficient of `_batch_verify`: 1 at index 0, otherwise
(1 + u) mod n where u is the i-th draw of the injected random source
(`random.getrandbits(nlen)` in the source). -/
def batch_coefficient (ec : Curve) (rand : Nat → Nat) (i : Nat) : Nat :=
  if i = 0 then 1 else (1 + rand i) % ec.n

/-- One iteration of the accumulation loop of `_batch_verify`, acting on
the state (t, scalars, points). -/
def batch_step (ms : List (List Nat)) (Ps : List Pt) (sigs : List (Nat × Nat))
    (ec : Curve) (hf : HashF) (rand : Nat → Nat) (i : Nat)
    (st : Nat × List Nat × List JacPt) : Except Err (Nat × List Nat × List JacPt) :=
  let sg := sigs.getD i (0, 0)
  match _check_sig sg ec with
  | .error z => .error z
  | .ok _ => match _ensure_msg_size (ms.getD i []) hf with
    | .error z => .error z
    | .ok _ =>
      let Pi := Ps.getD i INF_PT
      match require_on_curve ec Pi with
      | .error z => .error z
      | .ok _ =>
        let e := _e sg.1 Pi (ms.getD i []) ec hf
        match curve_y ec sg.1 with
        | .error z => .error z
        | .ok y =>
          let a := batch_coefficient ec rand i
          .ok (st.1 + a * sg.2,
               st.2.1 ++ [a, a * e % ec.n],
               st.2.2 ++ [jacFromAff (sg.1, y), jacFromAff Pi])

/-- The accumulation loop of `_batch_verify` over indices 0..N-1. -/
def batch_fold (ms : List (List Nat)) (Ps : List Pt) (sigs : List (Nat × Nat))
    (ec : Curve) (hf : HashF) (rand : Nat → Nat) :
    Nat → Except Err (Nat × List Nat × List JacPt)
  | 0 => .ok (0, [], [])
  | i + 1 => match batch_fold ms Ps sigs ec hf rand i with
    | .error z => .error z
    | .ok st => batch_step ms Ps sigs ec hf rand i st

/-- `_batch_verify` of `ssa.py`: the detailed, error-reporting batch
verification.  The secure random source is the injected `rand`
argument, per the spec randomness-injection design note. -/
def _batch_verify (ms : List (List Nat)) (Ps : List Pt) (sigs : List (Nat × Nat))
    (ec : Curve) (hf : HashF) (rand : Nat → Nat) : Except Err Bool :=
  if ¬ ec.p % 4 = 3 then .error .curveConstraint
  else
    if ms.length ≠ Ps.length then .error .sizeMismatch
    else if sigs.length ≠ Ps.length then .error .sizeMismatch
    else if Ps.length = 1 then
      _verify (ms.getD 0 []) (Ps.getD 0 INF_PT) (sigs.getD 0 (0, 0)) ec hf
    else match batch_fold ms Ps sigs ec hf rand Ps.length with
    | .error z => .error z
    | .ok st =>
      let TJ := mult_jac ec st.1 ec.GJ
      let RHSJ := multi_mult ec st.2.1 st.2.2
      let RHSZ2 := RHSJ.2.2 * RHSJ.2.2
      let TZ2 := TJ.2.2 * TJ.2.2
      if ¬ TJ.1 * RHSZ2 % ec.p = RHSJ.1 * TZ2 % ec.p then .ok false
      else .ok (TJ.2.1 * RHSZ2 * RHSJ.2.2 % ec.p == RHSJ.2.1 * TZ2 * TJ.2.2 % ec.p)

/-- `batch_verify` of `ssa.py`: the public entry point, a try/except
wrapper collapsing every error of `_batch_verify` to false. -/
def batch_verify (ms : List (List Nat)) (Ps : List Pt) (sigs : List (Nat × Nat))
    (ec : Curve) (hf : HashF) (rand : Nat → Nat) : Bool :=
  match _batch_verify ms Ps sigs ec hf rand with
  | .ok b => b
  | .error _ => false

instance {e a : Type} [DecidableEq e] [DecidableEq a] : DecidableEq (Except e a) := fun
  | .ok x, .ok y =>
    if h : x = y then isTrue (by rw [h]) else isFalse (fun hc => h (Except.ok.inj hc))
  | .ok _, .error _ => isFalse (fun hc => Except.noConfusion hc)
  | .error _, .ok _ => isFalse (fun hc => Except.noConfusion hc)
  | .error x, .error y =>
    if h : x = y then isTrue (by rw [h]) else isFalse (fun hc => h (Except.error.inj hc))

/-- Validity of a curve-algebra instance: the prime is 3 mod 4, the
generator spans a group of exact odd prime-like order n in which the
iterated-addition scalar multiplication is a homomorphism, negation
flips the y coordinate, quadratic residuosity is split between the two
roots, the Fermat inverse works mod n, the quadratic-residue root lookup
recovers the y coordinate, and the curve has no point with y = 0.
These are the interface guarantees of the Curve Algebra Provider
(spec sections 3 and 6), stated decidably for the subgroup generated
by G. -/
abbrev ValidCurve (ec : Curve) : Prop :=
  ec.p % 4 = 3 ∧
  1 < ec.p ∧
  1 < ec.n ∧
  ec.p ≤ 2 ^ 256 - 1 ∧
  ec.G.2 ≠ 0 ∧
  (∀ k, k < ec.n → (mult ec k ec.G).1 < ec.p ∧ (mult ec k ec.G).2 < ec.p) ∧
  (∀ k, k < ec.n → 0 < k → (mult ec k ec.G).2 ≠ 0) ∧
  (∀ k, k < ec.n → 0 < k → on_curve ec (mult ec k ec.G) = true) ∧
  (∀ x, x < ec.n → ∀ y, y < ec.n →
    mult ec x (mult ec y ec.G) = mult ec (x * y % ec.n) ec.G) ∧
  (∀ x, x < ec.n → ∀ y, y < ec.n →
    addPt ec (mult ec x ec.G) (mult ec y ec.G) = mult ec ((x + y) % ec.n) ec.G) ∧
  (∀ k, k < ec.n → 0 < k →
    mult ec (ec.n - k) ec.G = ((mult ec k ec.G).1, ec.p - (mult ec k ec.G).2)) ∧
  (∀ y, y < ec.p → 0 < y → legendre_symbol y ec.p ≠ 1 →
    legendre_symbol (ec.p - y) ec.p = 1) ∧
  (∀ e, e < ec.n → 0 < e →
    mod_inv e ec.n < ec.n ∧ 0 < mod_inv e ec.n ∧ e * mod_inv e ec.n % ec.n = 1) ∧
  (∀ k, k < ec.n → 0 < k → legendre_symbol (mult ec k ec.G).2 ec.p = 1 →
    y_quadratic_residue ec (mult ec k ec.G).1 = Except.ok (mult ec k ec.G).2) ∧
  (∀ x, x < ec.p → (x ^ 3 + ec.a * x + ec.b) % ec.p ≠ 0)

/-- A concrete valid instance: the curve y ^ 2 = x ^ 3 + 3 over F_7,
whose group has prime order 13 generated by (1, 2). -/
def smallCurve : Curve := ⟨7, 13, 0, 3, (1, 2), 4, 1⟩

/-- A concrete hash instance of digest size 1. -/
def smallHash : HashF := ⟨1, fun _ => [1]⟩

/-- A concrete deterministic nonce derivation, in range for smallCurve. -/
def smallNonce : List Nat → Nat → Nat := fun _ _ => 5

theorem smallCurve_valid : ValidCurve smallCurve :=
  ⟨by decide, by decide, by decide, by decide, by decide, by decide, by decide, by decide,
   by decide, by decide, by decide, by decide, by decide, by decide, by decide⟩

theorem check_sig_ok_iff (sig : Nat × Nat) (ec : Curve) :
    _check_sig sig ec = .ok () ↔ sig.1 < 2 ^ 256 - 1 ∧ sig.2 < ec.n := by
  unfold _check_sig
  split_ifs with h1 h2 <;> simp_all

theorem ensure_msg_ok_iff (msg : List Nat) (hf : HashF) :
    _ensure_msg_size msg hf = .ok () ↔ msg.length = hf.digestSize := by
  unfold _ensure_msg_size
  split_ifs with h <;> simp_all

theorem powMod_one (k p : Nat) : powMod 1 k p = 1 % p := by
  induction k with
  | zero => rfl
  | succ k ih =>
    show 1 * powMod 1 k p % p = 1 % p
    rw [one_mul, ih]
    exact Nat.mod_mod_of_dvd 1 (dvd_refl p)

theorem mod_inv_one (p : Nat) (hp : 1 < p) : mod_inv 1 p = 1 := by
  unfold mod_inv
  rw [powMod_one]
  exact Nat.mod_eq_of_lt hp

theorem affFromJac_jacFromAff (ec : Curve) (P : Pt) (hy : P.2 ≠ 0) :
    affFromJac ec (jacFromAff P) = P := by
  unfold jacFromAff affFromJac
  rw [if_neg hy]
  simp

theorem affFromJac_GJ (ec : Curve) (hy : ec.G.2 ≠ 0) : affFromJac ec ec.GJ = ec.G :=
  affFromJac_jacFromAff ec ec.G hy

theorem zmult_neg (ec : Curve) (e : Nat) (P : Pt) (he : e < ec.n) :
    zmult ec (-(e : Int)) P = mult ec ((ec.n - e) % ec.n) P := by
  unfold zmult
  congr 1
  have hcast : ((ec.n - e : Nat) : Int) = (ec.n : Int) - (e : Int) := by omega
  have h2 : (-(e : Int)) % (ec.n : Int) = ((ec.n - e : Nat) : Int) % (ec.n : Int) := by
    rw [hcast, show -(e : Int) = ((ec.n : Int) - e) + (ec.n : Int) * (-1) by ring,
      Int.add_mul_emod_self_left]
  rw [h2, ← Int.natCast_mod, Int.toNat_natCast]

theorem zmult_coe (ec : Curve) (m : Nat) (P : Pt) :
    zmult ec (m : Int) P = mult ec (m % ec.n) P := rfl

theorem mod_arith_verify (n e d k : Nat) (he : e ≤ n) (hk : k < n) :
    ((n - e) % n * d % n + (k + e * d) % n) % n = k := by
  have h1 : (n - e) % n * d % n + (k + e * d) % n ≡ (n - e) * d + (k + e * d) [MOD n] :=
    Nat.ModEq.add ((Nat.mod_modEq _ n).trans ((Nat.mod_modEq (n - e) n).mul_right d))
      (Nat.mod_modEq (k + e * d) n)
  have h2 : (n - e) * d + (k + e * d) = n * d + k := by
    have hx : (n - e) * d + e * d = n * d := by rw [← Nat.add_mul, Nat.sub_add_cancel he]
    omega
  have hn0 : n ≡ 0 [MOD n] := by unfold Nat.ModEq; simp
  have h3 : (n - e) % n * d % n + (k + e * d) % n ≡ k [MOD n] := by
    calc (n - e) % n * d % n + (k + e * d) % n
        ≡ (n - e) * d + (k + e * d) [MOD n] := h1
      _ = n * d + k := h2
      _ ≡ 0 * d + k [MOD n] := Nat.ModEq.add_right k (hn0.mul_right d)
      _ = k := by rw [Nat.zero_mul, Nat.zero_add]
  have h4 : ((n - e) % n * d % n + (k + e * d) % n) % n = k % n := h3
  rwa [Nat.mod_eq_of_lt hk] at h4

theorem mod_arith_recovery (n e e1 kf d : Nat) (he1 : e1 ≤ n) (hd : d < n)
    (hee1 : e * e1 % n = 1) :
    ((n - e1) % n * kf % n + e1 * ((kf + e * d) % n) % n) % n = d := by
  have hn2 : 1 < n := by
    by_contra hc
    push_neg at hc
    interval_cases n
    · rw [Nat.le_zero] at he1
      subst he1
      simp at hee1
    · simp [Nat.mod_one] at hee1
  have h1 : (n - e1) % n * kf % n + e1 * ((kf + e * d) % n) % n
      ≡ (n - e1) * kf + e1 * (kf + e * d) [MOD n] :=
    Nat.ModEq.add ((Nat.mod_modEq _ n).trans ((Nat.mod_modEq (n - e1) n).mul_right kf))
      ((Nat.mod_modEq _ n).trans ((Nat.mod_modEq (kf + e * d) n).mul_left e1))
  have h2 : (n - e1) * kf + e1 * (kf + e * d) = n * kf + e * e1 * d := by
    have hx : (n - e1) * kf + e1 * kf = n * kf := by rw [← Nat.add_mul, Nat.sub_add_cancel he1]
    calc (n - e1) * kf + e1 * (kf + e * d)
        = ((n - e1) * kf + e1 * kf) + e * e1 * d := by ring
      _ = n * kf + e * e1 * d := by rw [hx]
  have hn0 : n ≡ 0 [MOD n] := by unfold Nat.ModEq; simp
  have hee : e * e1 ≡ 1 [MOD n] := by
    unfold Nat.ModEq
    rw [hee1, Nat.mod_eq_of_lt hn2]
  have h3 : (n - e1) % n * kf % n + e1 * ((kf + e * d) % n) % n ≡ d [MOD n] := by
    calc (n - e1) % n * kf % n + e1 * ((kf + e * d) % n) % n
        ≡ (n - e1) * kf + e1 * (kf + e * d) [MOD n] := h1
      _ = n * kf + e * e1 * d := h2
      _ ≡ 0 * kf + 1 * d [MOD n] := Nat.ModEq.add (hn0.mul_right kf) (hee.mul_right d)
      _ = d := by rw [Nat.zero_mul, Nat.one_mul, Nat.zero_add]
  have h4 : ((n - e1) % n * kf % n + e1 * ((kf + e * d) % n) % n) % n = d % n := h3
  rwa [Nat.mod_eq_of_lt hd] at h4

theorem sign_spec (ec : Curve) (hf : HashF) (nonce : List Nat → Nat → Nat)
    (mhd : List Nat) (d k : Nat) (k0 : Option Nat)
    (V : ValidCurve ec)
    (hm : mhd.length = hf.digestSize)
    (hd0 : 0 < d) (hdn : d < ec.n)
    (hkd : k0.getD (nonce mhd d) = k)
    (hk0 : 0 < k) (hkn : k < ec.n) :
    sign mhd d k0 ec hf nonce =
      .ok ((mult ec k ec.G).1,
        ((if legendre_symbol (mult ec k ec.G).2 ec.p ≠ 1 then ec.n - k else k) +
          _e (mult ec k ec.G).1 (mult ec d ec.G) mhd ec hf * d) % ec.n) := by
  obtain ⟨hp4, hp1, hn1, hpB, hGy, hcoord, hyne, honc, hP1, hP2, hP3, hP4, hP5, hP6, h2t⟩ := V
  have hy : (mult ec k ec.G).2 ≠ 0 := hyne k hkn hk0
  have hxlt : (mult ec k ec.G).1 < ec.p := (hcoord k hkn).1
  have hylt : (mult ec k ec.G).2 < ec.p := (hcoord k hkn).2
  have hjac : jacFromAff (mult ec k ec.G) = ((mult ec k ec.G).1, (mult ec k ec.G).2, 1) := by
    unfold jacFromAff
    rw [if_neg hy]
  unfold sign mult_jac
  simp only [hkd]
  rw [if_neg (not_not_intro hp4)]
  simp only [(ensure_msg_ok_iff mhd hf).2 hm]
  rw [if_neg (not_not_intro ⟨hd0, hdn⟩), if_neg (not_not_intro ⟨hk0, hkn⟩)]
  rw [affFromJac_GJ ec hGy, hjac]
  simp only [Nat.mul_one, Nat.one_mul, mod_inv_one ec.p hp1,
    Nat.mod_eq_of_lt hxlt, Nat.mod_eq_of_lt hylt]

theorem batch_step_error (ms : List (List Nat)) (Ps : List Pt) (sigs : List (Nat × Nat))
    (ec : Curve) (hf : HashF) (rand : Nat → Nat) (i : Nat)
    (st : Nat × List Nat × List JacPt)
    (h2t : ∀ x, x < ec.p → (x ^ 3 + ec.a * x + ec.b) % ec.p ≠ 0)
    (hbad : _check_sig (sigs.getD i (0, 0)) ec ≠ .ok () ∨
            _ensure_msg_size (ms.getD i []) hf ≠ .ok () ∨
            on_curve ec (Ps.getD i INF_PT) = false ∨
            (Ps.getD i INF_PT).2 = 0) :
    ∃ z, batch_step ms Ps sigs ec hf rand i st = .error z := by
  unfold batch_step
  cases hc : _check_sig (sigs.getD i (0, 0)) ec with
  | error z => exact ⟨z, by simp only [hc]⟩
  | ok u =>
    cases u
    cases hmm : _ensure_msg_size (ms.getD i []) hf with
    | error z => exact ⟨z, by simp only [hc, hmm]⟩
    | ok u =>
      cases u
      have hoc : on_curve ec (Ps.getD i INF_PT) = false := by
        rcases hbad with h | h | h | h
        · exact absurd hc h
        · exact absurd hmm h
        · exact h
        · cases hcv : on_curve ec (Ps.getD i INF_PT) with
          | false => rfl
          | true =>
            exfalso
            unfold on_curve at hcv
            rw [h] at hcv
            simp only [Bool.and_eq_true, decide_eq_true_eq, beq_iff_eq] at hcv
            obtain ⟨⟨hx, _⟩, heq⟩ := hcv
            rw [Nat.zero_mul, Nat.zero_mod] at heq
            exact h2t _ hx heq.symm
      have hrc : require_on_curve ec (Ps.getD i INF_PT) = .error .pointErr := by
        unfold require_on_curve
        rw [hoc]
        rfl
      exact ⟨.pointErr, by simp only [hc, hmm, hrc]⟩

theorem batch_fold_bad (ms : List (List Nat)) (Ps : List Pt) (sigs : List (Nat × Nat))
    (ec : Curve) (hf : HashF) (rand : Nat → Nat) (i N : Nat)
    (h2t : ∀ x, x < ec.p → (x ^ 3 + ec.a * x + ec.b) % ec.p ≠ 0)
    (hiN : i < N)
    (hbad : _check_sig (sigs.getD i (0, 0)) ec ≠ .ok () ∨
            _ensure_msg_size (ms.getD i []) hf ≠ .ok () ∨
            on_curve ec (Ps.getD i INF_PT) = false ∨
            (Ps.getD i INF_PT).2 = 0) :
    ∃ z, batch_fold ms Ps sigs ec hf rand N = .error z := by
  induction N with
  | zero => omega
  | succ N ih =>
    rcases Nat.lt_succ_iff_lt_or_eq.mp hiN with hlt | rfl
    · obtain ⟨z, hz⟩ := ih hlt
      exact ⟨z, by simp only [batch_fold, hz]⟩
    · cases hst : batch_fold ms Ps sigs ec hf rand i with
      | error z => exact ⟨z, by simp only [batch_fold, hst]⟩
      | ok st =>
        obtain ⟨z, hz⟩ := batch_step_error ms Ps sigs ec hf rand i st h2t hbad
        exact ⟨z, by simp only [batch_fold, hst, hz]⟩

/-- C4: in a batch of size greater than one, every index is validated
with the same signature-format and message-size checks as single
verification, and the public key must be an on-curve, non-infinite
point; a violation at any index makes `batch_verify` return false. -/
theorem claim_C4_batch_per_index_validation (ms : List (List Nat)) (Ps : List Pt)
    (sigs : List (Nat × Nat)) (ec : Curve) (hf : HashF) (rand : Nat → Nat) (i : Nat)
    (V : ValidCurve ec) (hN : 1 < Ps.length) (hi : i < Ps.length)
    (hbad : _check_sig (sigs.getD i (0, 0)) ec ≠ .ok () ∨
            _ensure_msg_size (ms.getD i []) hf ≠ .ok () ∨
            on_curve ec (Ps.getD i INF_PT) = false ∨
            (Ps.getD i INF_PT).2 = 0) :
    batch_verify ms Ps sigs ec hf rand = false := by
  obtain ⟨hp4, hp1, hn1, hpB, hGy, hcoord, hyne, honc, hP1, hP2, hP3, hP4, hP5, hP6, h2t⟩ := V
  unfold batch_verify _batch_verify
  rw [if_neg (not_not_intro hp4)]
  by_cases hm1 : ms.length = Ps.length
  · by_cases hs1 : sigs.length = Ps.length
    · rw [if_neg (not_not_intro hm1), if_neg (not_not_intro hs1)]
      rw [if_neg (by omega : ¬ Ps.length = 1)]
      obtain ⟨z, hz⟩ := batch_fold_bad ms Ps sigs ec hf rand i Ps.length h2t hi hbad
      rw [hz]
    · simp [hm1, hs1]
  · simp [hm1]

theorem claim_C4_batch_per_index_validation_witness :
    batch_verify [[0, 0], [0]] [(6, 3), (6, 3)] [(3, 10), (3, 10)] smallCurve smallHash
      (fun _ => 0) = false :=
  claim_C4_batch_per_index_validation [[0, 0], [0]] [(6, 3), (6, 3)] [(3, 10), (3, 10)]
    smallCurve smallHash (fun _ => 0) 0 smallCurve_valid (by decide) (by decide)
    (Or.inr (Or.inl (by decide)))

/-- C5: a successful `sign` with nonce k returns r = x(kG) mod p and
s = (k2 + e d) mod n, where k2 is n - k exactly when the y coordinate
of kG is not a quadratic residue, and e is the challenge over (r, P,
mhd); any s, including 0, is accepted. -/
theorem claim_C5_sign_structure (ec : Curve) (hf : HashF) (nonce : List Nat → Nat → Nat)
    (mhd : List Nat) (d k : Nat) (V : ValidCurve ec)
    (hm : mhd.length = hf.digestSize)
    (hd0 : 0 < d) (hdn : d < ec.n) (hk0 : 0 < k) (hkn : k < ec.n) :
    sign mhd d (some k) ec hf nonce =
      .ok ((mult ec k ec.G).1 % ec.p,
        ((if legendre_symbol (mult ec k ec.G).2 ec.p ≠ 1 then ec.n - k else k) +
          _e ((mult ec k ec.G).1 % ec.p) (mult ec d ec.G) mhd ec hf * d) % ec.n) := by
  have hxlt : (mult ec k ec.G).1 < ec.p := (V.2.2.2.2.2.1 k hkn).1
  rw [Nat.mod_eq_of_lt hxlt]
  exact sign_spec ec hf nonce mhd d k (some k) V hm hd0 hdn rfl hk0 hkn

theorem claim_C5_sign_structure_witness :
    sign [0] 2 (some 5) smallCurve smallHash smallNonce = .ok (3, 10) := by
  rw [claim_C5_sign_structure smallCurve smallHash smallNonce [0] 2 5 smallCurve_valid
    (by decide) (by decide) (by decide) (by decide) (by decide)]
  decide

theorem verify_sound (ec : Curve) (hf : HashF) (mhd : List Nat) (d k2 : Nat)
    (V : ValidCurve ec) (hm : mhd.length = hf.digestSize)
    (hd0 : 0 < d) (hdn : d < ec.n) (hk0 : 0 < k2) (hkn : k2 < ec.n)
    (hqr : legendre_symbol (mult ec k2 ec.G).2 ec.p = 1) :
    _verify mhd (mult ec d ec.G)
      ((mult ec k2 ec.G).1,
        (k2 + _e (mult ec k2 ec.G).1 (mult ec d ec.G) mhd ec hf * d) % ec.n) ec hf
      = .ok true := by
  obtain ⟨hp4, hp1, hn1, hpB, hGy, hcoord, hyne, honc, hP1, hP2, hP3, hP4, hP5, hP6, h2t⟩ := V
  have hn0 : 0 < ec.n := by omega
  have hxlt : (mult ec k2 ec.G).1 < ec.p := (hcoord k2 hkn).1
  have hylt : (mult ec k2 ec.G).2 < ec.p := (hcoord k2 hkn).2
  have hdy : (mult ec d ec.G).2 ≠ 0 := hyne d hdn hd0
  have hky : (mult ec k2 ec.G).2 ≠ 0 := hyne k2 hkn hk0
  have helt : _e (mult ec k2 ec.G).1 (mult ec d ec.G) mhd ec hf < ec.n := by
    unfold _e int_from_bits
    exact Nat.mod_lt _ hn0
  have hslt : (k2 + _e (mult ec k2 ec.G).1 (mult ec d ec.G) mhd ec hf * d) % ec.n < ec.n :=
    Nat.mod_lt _ hn0
  have hcs : _check_sig ((mult ec k2 ec.G).1,
      (k2 + _e (mult ec k2 ec.G).1 (mult ec d ec.G) mhd ec hf * d) % ec.n) ec = .ok () :=
    (check_sig_ok_iff _ ec).2 ⟨lt_of_lt_of_le hxlt hpB, hslt⟩
  have hoc : require_on_curve ec (mult ec d ec.G) = .ok () := by
    unfold require_on_curve
    simp [honc d hdn hd0]
  have haff1 : affFromJac ec ((mult ec d ec.G).1, (mult ec d ec.G).2, 1) = mult ec d ec.G := by
    unfold affFromJac
    simp
  have hjac2 : jacFromAff (mult ec k2 ec.G)
      = ((mult ec k2 ec.G).1, (mult ec k2 ec.G).2, 1) := by
    unfold jacFromAff
    rw [if_neg hky]
  unfold _verify
  rw [if_neg (not_not_intro hp4)]
  simp only [hcs, (ensure_msg_ok_iff mhd hf).2 hm, hoc]
  rw [if_neg hdy]
  unfold double_mult_jac double_mult
  rw [haff1, affFromJac_GJ ec hGy, zmult_neg ec _ _ helt, zmult_coe]
  rw [hP1 _ (Nat.mod_lt _ hn0) d hdn]
  rw [hP2 _ (Nat.mod_lt _ hn0) _ (Nat.mod_lt _ hn0)]
  rw [Nat.mod_mod_of_dvd _ (dvd_refl ec.n)]
  rw [mod_arith_verify ec.n _ d k2 (le_of_lt helt) hkn]
  rw [hjac2]
  simp [hqr, Nat.mod_eq_of_lt hxlt, Nat.mod_eq_of_lt hylt]

/-- C9: for a signature (r, s) produced by `sign` under key d, public
key recovery at the recomputed challenge e returns d G (computed from
K = (r, quadratic-residue root at r) as the inverse-challenge double
scalar multiplication); and recovery always fails at e = 0. -/
theorem claim_C9_pubkey_recovery (ec : Curve) (hf : HashF)
    (nonce : List Nat → Nat → Nat) (mhd : List Nat) (d r s : Nat)
    (V : ValidCurve ec) (hm : mhd.length = hf.digestSize)
    (hd0 : 0 < d) (hdn : d < ec.n)
    (hsig : sign mhd d none ec hf nonce = .ok (r, s))
    (he : 0 < _e r (mult ec d ec.G) mhd ec hf) :
    _pubkey_recovery (_e r (mult ec d ec.G) mhd ec hf) (r, s) ec hf
      = .ok (mult ec d ec.G) ∧
    (∀ sg : Nat × Nat, ∃ z, _pubkey_recovery 0 sg ec hf = .error z) := by
  obtain ⟨hp4, hp1, hn1, hpB, hGy, hcoord, hyne, honc, hP1, hP2, hP3, hP4, hP5, hP6, h2t⟩ := id V
  have hn0 : 0 < ec.n := by omega
  constructor
  · have hk : 0 < nonce mhd d ∧ nonce mhd d < ec.n := by
      by_contra hc
      unfold sign at hsig
      rw [if_neg (not_not_intro hp4)] at hsig
      simp only [(ensure_msg_ok_iff mhd hf).2 hm] at hsig
      rw [if_neg (not_not_intro ⟨hd0, hdn⟩)] at hsig
      simp only [Option.getD] at hsig
      rw [if_pos hc] at hsig
      exact Except.noConfusion hsig
    obtain ⟨hk0, hkn⟩ := hk
    rw [sign_spec ec hf nonce mhd d (nonce mhd d) none V hm hd0 hdn rfl hk0 hkn] at hsig
    have hpair := Except.ok.inj hsig
    have hr : (mult ec (nonce mhd d) ec.G).1 = r := congrArg Prod.fst hpair
    have hs : ((if legendre_symbol (mult ec (nonce mhd d) ec.G).2 ec.p ≠ 1
          then ec.n - nonce mhd d else nonce mhd d) +
        _e (mult ec (nonce mhd d) ec.G).1 (mult ec d ec.G) mhd ec hf * d) % ec.n = s :=
      congrArg Prod.snd hpair
    subst hr
    subst hs
    set k := nonce mhd d with hkdef
    set kf := if legendre_symbol (mult ec k ec.G).2 ec.p ≠ 1 then ec.n - k else k with hkf
    obtain ⟨hkf0, hkfn, hkx, hkq⟩ : 0 < kf ∧ kf < ec.n ∧
        (mult ec kf ec.G).1 = (mult ec k ec.G).1 ∧
        legendre_symbol (mult ec kf ec.G).2 ec.p = 1 := by
      by_cases hq : legendre_symbol (mult ec k ec.G).2 ec.p = 1
      · rw [hkf, if_neg (not_not_intro hq)]
        exact ⟨hk0, hkn, rfl, hq⟩
      · rw [hkf, if_pos hq]
        refine ⟨by omega, by omega, ?_, ?_⟩
        · rw [hP3 k hkn hk0]
        · rw [hP3 k hkn hk0]
          exact hP4 _ ((hcoord k hkn).2) (Nat.pos_of_ne_zero (hyne k hkn hk0)) hq
    set e := _e (mult ec k ec.G).1 (mult ec d ec.G) mhd ec hf with hedef
    have helt : e < ec.n := by
      rw [hedef]
      unfold _e int_from_bits
      exact Nat.mod_lt _ hn0
    obtain ⟨hinvlt, hinv0, hinv1⟩ := hP5 e helt he
    have hcs : _check_sig ((mult ec k ec.G).1, (kf + e * d) % ec.n) ec = .ok () :=
      (check_sig_ok_iff _ ec).2
        ⟨lt_of_lt_of_le (hcoord k hkn).1 hpB, Nat.mod_lt _ hn0⟩
    have hyq : y_quadratic_residue ec (mult ec k ec.G).1 = .ok (mult ec kf ec.G).2 := by
      rw [← hkx]
      exact hP6 kf hkfn hkf0 hkq
    have hK : ((mult ec k ec.G).1, (mult ec kf ec.G).2) = mult ec kf ec.G := by
      rw [← hkx]
      rfl
    unfold _pubkey_recovery
    simp only [hcs, hyq]
    rw [if_neg (by omega : ¬ e = 0)]
    rw [hK]
    unfold double_mult
    rw [zmult_neg ec _ _ hinvlt, zmult_coe]
    rw [hP1 _ (Nat.mod_lt _ hn0) kf hkfn]
    rw [hP2 _ (Nat.mod_lt _ hn0) _ (Nat.mod_lt _ hn0)]
    rw [mod_arith_recovery ec.n e (mod_inv e ec.n) kf d (le_of_lt hinvlt) hdn hinv1]
    rw [if_neg (hyne d hdn hd0)]
  · intro sg
    unfold _pubkey_recovery
    cases hc : _check_sig sg ec with
    | error z => exact ⟨z, by simp [hc]⟩
    | ok u =>
      cases u
      cases hyq : y_quadratic_residue ec sg.1 with
      | error z => exact ⟨z, by simp [hc, hyq]⟩
      | ok y => exact ⟨.zeroChallenge, by simp [hc, hyq]⟩

theorem claim_C9_pubkey_recovery_witness :
    _pubkey_recovery 1 (3, 10) smallCurve smallHash = .ok (mult smallCurve 2 smallCurve.G) ∧
    (∀ sg : Nat × Nat, ∃ z, _pubkey_recovery 0 sg smallCurve smallHash = .error z) := by
  have h := claim_C9_pubkey_recovery smallCurve smallHash smallNonce [0] 2 3 10
    smallCurve_valid (by decide) (by decide) (by decide) (by decide) (by decide)
  exact ⟨h.1, h.2⟩

/-- C1: for a private key d in [1, n-1] and a message of digest size,
any signature produced by deterministic signing verifies against the
public key d G. -/
theorem claim_C1_sign_verify_roundtrip (ec : Curve) (hf : HashF)
    (nonce : List Nat → Nat → Nat) (mhd : List Nat) (d : Nat) (sig : Nat × Nat)
    (V : ValidCurve ec) (hm : mhd.length = hf.digestSize)
    (hd0 : 0 < d) (hdn : d < ec.n)
    (hsig : sign mhd d none ec hf nonce = .ok sig) :
    verify mhd (mult ec d ec.G) sig ec hf = true := by
  obtain ⟨hp4, hp1, hn1, hpB, hGy, hcoord, hyne, honc, hP1, hP2, hP3, hP4, hP5, hP6, h2t⟩ := id V
  have hk : 0 < nonce mhd d ∧ nonce mhd d < ec.n := by
    by_contra hc
    unfold sign at hsig
    rw [if_neg (not_not_intro hp4)] at hsig
    simp only [(ensure_msg_ok_iff mhd hf).2 hm] at hsig
    rw [if_neg (not_not_intro ⟨hd0, hdn⟩)] at hsig
    simp only [Option.getD] at hsig
    rw [if_pos hc] at hsig
    exact Except.noConfusion hsig
  obtain ⟨hk0, hkn⟩ := hk
  rw [sign_spec ec hf nonce mhd d (nonce mhd d) none V hm hd0 hdn rfl hk0 hkn] at hsig
  obtain rfl := (Except.ok.inj hsig).symm
  by_cases hq : legendre_symbol (mult ec (nonce mhd d) ec.G).2 ec.p = 1
  · rw [if_neg (not_not_intro hq)]
    unfold verify
    rw [verify_sound ec hf mhd d (nonce mhd d) V hm hd0 hdn hk0 hkn hq]
  · rw [if_pos hq]
    have hx : (mult ec (ec.n - nonce mhd d) ec.G).1 = (mult ec (nonce mhd d) ec.G).1 := by
      rw [hP3 (nonce mhd d) hkn hk0]
    have hy2 : (mult ec (ec.n - nonce mhd d) ec.G).2
        = ec.p - (mult ec (nonce mhd d) ec.G).2 := by
      rw [hP3 (nonce mhd d) hkn hk0]
    have hq2 : legendre_symbol (mult ec (ec.n - nonce mhd d) ec.G).2 ec.p = 1 := by
      rw [hy2]
      exact hP4 _ ((hcoord (nonce mhd d) hkn).2)
        (Nat.pos_of_ne_zero (hyne (nonce mhd d) hkn hk0)) hq
    have hk20 : 0 < ec.n - nonce mhd d := by omega
    have hk2n : ec.n - nonce mhd d < ec.n := by omega
    rw [show (mult ec (nonce mhd d) ec.G).1
        = (mult ec (ec.n - nonce mhd d) ec.G).1 from hx.symm]
    unfold verify
    rw [verify_sound ec hf mhd d (ec.n - nonce mhd d) V hm hd0 hdn hk20 hk2n hq2]

theorem claim_C1_sign_verify_roundtrip_witness :
    verify [0] (mult smallCurve 2 smallCurve.G) (3, 10) smallCurve smallHash = true :=
  claim_C1_sign_verify_roundtrip smallCurve smallHash smallNonce [0] 2 (3, 10)
    smallCurve_valid (by decide) (by decide) (by decide) (by decide)

/-- C2: the public entry points `verify` and `batch_verify` are total
boolean functions; they return true exactly when the detailed raising
form succeeds with true, every error kind collapsing to false. -/
theorem claim_C2_defensive_boundary :
    ∀ (mhd : List Nat) (P : Pt) (sg : Nat × Nat) (ec : Curve) (hf : HashF)
      (ms : List (List Nat)) (Ps : List Pt) (sigs : List (Nat × Nat)) (rand : Nat → Nat),
      (verify mhd P sg ec hf = true ↔ _verify mhd P sg ec hf = Except.ok true) ∧
      (batch_verify ms Ps sigs ec hf rand = true ↔
        _batch_verify ms Ps sigs ec hf rand = Except.ok true) := by
  intro mhd P sg ec hf ms Ps sigs rand
  constructor
  · unfold verify
    cases _verify mhd P sg ec hf with
    | ok b => cases b <;> simp
    | error z => simp
  · unfold batch_verify
    cases _batch_verify ms Ps sigs ec hf rand with
    | ok b => cases b <;> simp
    | error z => simp

/-- C3 supporting theorem: the randomised linear-combination coefficient
of `_batch_verify` is 1 at index 0 and (1 + u) mod n at index i > 0,
where u is the i-th draw of the injected random source. -/
theorem claim_C3_batch_coefficient (ec : Curve) (rand : Nat → Nat) :
    batch_coefficient ec rand 0 = 1 ∧
    ∀ i, i ≠ 0 → batch_coefficient ec rand i = (1 + rand i) % ec.n := by
  refine ⟨rfl, fun i hi => ?_⟩
  unfold batch_coefficient
  rw [if_neg hi]

theorem claim_C3_batch_coefficient_witness :
    batch_coefficient smallCurve (fun _ => 20) 0 = 1 ∧
    batch_coefficient smallCurve (fun _ => 20) 1 = 8 := by
  refine ⟨(claim_C3_batch_coefficient smallCurve (fun _ => 20)).1, ?_⟩
  rw [(claim_C3_batch_coefficient smallCurve (fun _ => 20)).2 1 (by decide)]
  decide

/-- C6: `verify` returns false whenever s is at least n, whenever r is
at least 2 ^ 256 - 1, and whenever the message length differs from the
digest size of the hash function. -/
theorem claim_C6_format_rejection (mhd : List Nat) (P : Pt) (r s : Nat)
    (ec : Curve) (hf : HashF)
    (h : ec.n ≤ s ∨ 2 ^ 256 - 1 ≤ r ∨ mhd.length ≠ hf.digestSize) :
    verify mhd P (r, s) ec hf = false := by
  unfold verify _verify
  by_cases hp : ec.p % 4 = 3
  · cases hc : _check_sig (r, s) ec with
    | error z => simp [hp, hc]
    | ok u =>
      cases u
      have hrs := (check_sig_ok_iff (r, s) ec).1 hc
      cases he : _ensure_msg_size mhd hf with
      | error z => simp [hp, hc, he]
      | ok u =>
        cases u
        have hm := (ensure_msg_ok_iff mhd hf).1 he
        exfalso
        rcases h with h | h | h
        · exact absurd hrs.2 (by omega)
        · exact absurd hrs.1 (by omega)
        · exact h hm
  · simp [hp]

theorem claim_C6_format_rejection_witness :
    verify [0] (6, 3) (3, 13) smallCurve smallHash = false :=
  claim_C6_format_rejection [0] (6, 3) 3 13 smallCurve smallHash (Or.inl (by decide))

/-- C7: batch verification of one-element sequences coincides with
single verification, the size-one case delegating to `_verify` and the
wrapper propagating its boolean result. -/
theorem claim_C7_batch_single_equivalence :
    ∀ (m : List Nat) (P : Pt) (sg : Nat × Nat) (ec : Curve) (hf : HashF) (rand : Nat → Nat),
      batch_verify [m] [P] [sg] ec hf rand = verify m P sg ec hf := by
  intro m P sg ec hf rand
  unfold batch_verify verify _batch_verify
  by_cases hp : ec.p % 4 = 3
  · simp [hp, List.getD]
  · simp [hp, _verify]

/-- C8: with input sequences of unequal lengths, the detailed batch form
fails with the size-mismatch error and the public wrapper returns false;
no leading part of the batch is verified by truncation. -/
theorem claim_C8_size_mismatch (ms : List (List Nat)) (Ps : List Pt)
    (sigs : List (Nat × Nat)) (ec : Curve) (hf : HashF) (rand : Nat → Nat)
    (hp : ec.p % 4 = 3)
    (hlen : ms.length ≠ Ps.length ∨ sigs.length ≠ Ps.length) :
    _batch_verify ms Ps sigs ec hf rand = .error .sizeMismatch ∧
    batch_verify ms Ps sigs ec hf rand = false := by
  have hb : _batch_verify ms Ps sigs ec hf rand = .error .sizeMismatch := by
    unfold _batch_verify
    rcases hlen with h | h
    · simp [hp, h]
    · by_cases h2 : ms.length = Ps.length
      · simp [hp, h2, h]
      · simp [hp, h2]
  refine ⟨hb, ?_⟩
  unfold batch_verify
  rw [hb]

theorem claim_C8_size_mismatch_witness :
    _batch_verify [[0]] [] [] smallCurve smallHash (fun _ => 0) = .error .sizeMismatch ∧
    batch_verify [[0]] [] [] smallCurve smallHash (fun _ => 0) = false :=
  claim_C8_size_mismatch [[0]] [] [] smallCurve smallHash (fun _ => 0)
    (by decide) (Or.inl (by decide))

/-- C10: batch verification of three empty sequences returns true: the
length checks pass, the loop contributes nothing, and the Jacobian
cross-multiplication comparison holds between the two infinity points. -/
theorem claim_C10_empty_batch (ec : Curve) (hf : HashF) (rand : Nat → Nat)
    (hp : ec.p % 4 = 3) :
    batch_verify [] [] [] ec hf rand = true := by
  unfold batch_verify _batch_verify
  simp [hp, batch_fold, mult_jac, multi_mult, jacFromAff, affFromJac, INF_PT, INFJ,
    Curve.GJ, mult]

theorem claim_C10_empty_batch_witness :
    batch_verify [] [] [] smallCurve smallHash (fun _ => 0) = true :=
  claim_C10_empty_batch smallCurve smallHash (fun _ => 0) (by decide)

end Btclib
